import Mathlib

/-!
Verification of the HireCoach interview/resume web application (`app.py`).

Strings are modelled as `List Char`. Python's regular-expression based
extraction routines are embedded as executable scanning functions whose
semantics follow the backtracking behaviour of `re.search` / `re.findall`
on the concrete patterns used in the source. The Flask route handlers are
embedded as pure functions over the persisted session state; the external
LLM gateway is modelled by passing the raw completion text (already
`.strip()`-ed by the caller in the source) as an explicit argument.
-/

namespace HireCoach

/-- ASCII whitespace, matching Python's `\s` class and `str.strip()` on the
ASCII texts this application manipulates: space, tab, newline, carriage
return, vertical tab and form feed. -/
def isSpaceChar (c : Char) : Bool :=
  c = ' ' || c = '\t' || c = '\n' || c = '\r' || c = '\x0b' || c = '\x0c'

/-- Decimal digit test, Python's `\d` on ASCII text. -/
def isDigitChar (c : Char) : Bool :=
  '0' ≤ c && c ≤ '9'

/-- ASCII lower-casing, used to model the `re.IGNORECASE` flag. -/
def lowerChar (c : Char) : Char :=
  if 'A' ≤ c && c ≤ 'Z' then Char.ofNat (c.toNat + 32) else c

/-- Does `p` occur at the very start of `s` (case-sensitively)? -/
def startsWithL : List Char → List Char → Bool
  | [], _ => true
  | _ :: _, [] => false
  | p :: ps, c :: cs => p = c && startsWithL ps cs

/-- Does `p` (given in lower case) occur at the start of `s`, comparing
case-insensitively? -/
def startsWithCI : List Char → List Char → Bool
  | [], _ => true
  | _ :: _, [] => false
  | p :: ps, c :: cs => p = lowerChar c && startsWithCI ps cs

/-- Split `s` at the first (leftmost) occurrence of `pat`, returning the text
before the occurrence and the text after it. `none` when `pat` does not occur.
This is the leftmost-match semantics of a regex literal. -/
def splitOnFirst (pat : List Char) : List Char → Option (List Char × List Char)
  | [] => if pat.isEmpty then some ([], []) else none
  | c :: cs =>
    if startsWithL pat (c :: cs) then some ([], (c :: cs).drop pat.length)
    else
      match splitOnFirst pat cs with
      | some (pre, post) => some (c :: pre, post)
      | none => none

/-- Generic left-to-right regex search: try the position matcher `hit` at every
start position of `s` from the left and return its first success. This is the
semantics of `re.search`, which on failure at one start position advances the
start by one character. -/
def scanFor {α : Type} (hit : List Char → Option α) : List Char → Option α
  | [] => none
  | c :: cs =>
    match hit (c :: cs) with
    | some r => some r
    | none => scanFor hit cs

/-- The suffix of `s` following the first case-insensitive occurrence of
`lab` (the label is given in lower case). -/
def findAfterCI (lab : List Char) : List Char → Option (List Char) :=
  scanFor fun t => if startsWithCI lab t then some (t.drop lab.length) else none

/-- Python's `str.strip()`: remove whitespace from both ends. -/
def trimL (s : List Char) : List Char :=
  (((s.reverse.dropWhile isSpaceChar).reverse).dropWhile isSpaceChar)

/-- Abbreviation turning a string literal into its character list. -/
def strL (s : String) : List Char := s.toList

/-- The literal `Question:` label of the question/answer prompt contract. -/
def qLabel : List Char := strL "Question:"

/-- The literal `Answer:` label of the question/answer prompt contract. -/
def aLabel : List Char := strL "Answer:"

/-- A parsed question/ideal-answer pair, the element type produced by
`parse_ai_response` in the source. -/
structure QA where
  question : List Char
  answer : List Char
deriving DecidableEq, Repr

/-- The successive raw matches of the pattern
`Question:\s*(.*?)\s*Answer:\s*(.*?)(?=(Question:|$))` (DOTALL) on `s`,
before trimming, as produced by `re.findall`. Each match starts at the
first `Question:` occurrence, its first group runs to the first following
`Answer:` occurrence, and its lazy second group ends at the next
`Question:` occurrence (the lookahead) or at the end of the text; findall
resumes scanning from that position. The fuel argument bounds the number of
matches; `s.length` always suffices because each match consumes both
labels. -/
def findAllQA : Nat → List Char → List (List Char × List Char)
  | 0, _ => []
  | fuel + 1, s =>
    match splitOnFirst qLabel s with
    | none => []
    | some (_, afterQ) =>
      match splitOnFirst aLabel afterQ with
      | none => []
      | some (g1, afterA) =>
        let g2 :=
          match splitOnFirst qLabel afterA with
          | some (pre, _) => pre
          | none => afterA
        (g1, g2) :: findAllQA fuel afterA

/-- Embedding of `parse_ai_response` (app.py lines 145-160): find all
`Question: … Answer: …` blocks, strip both components, and keep only the
pairs whose question and answer are non-empty after stripping. -/
def parse_ai_response (s : List Char) : List QA :=
  (findAllQA s.length s).filterMap fun p =>
    let q := trimL p.1
    let a := trimL p.2
    if q = [] ∨ a = [] then none else some ⟨q, a⟩

/-- The sentinel value stored for fields the parsers could not extract. -/
def nA : List Char := strL "N/A"

/-- Lower-cased `Hiring Percentage:` label. -/
def hpLabel : List Char := strL "hiring percentage:"

/-- Lower-cased `Areas for Improvement:` label. -/
def afiLabel : List Char := strL "areas for improvement:"

/-- Lower-cased `Overall Message:` label. -/
def omLabel : List Char := strL "overall message:"

/-- Lower-cased `Overall Feedback:` label. -/
def ofLabel : List Char := strL "overall feedback:"

/-- Position matcher for `Hiring Percentage:\s*(\d{1,3})%` (IGNORECASE): the
label, optional whitespace, a run of one to three digits immediately followed
by `%`. A longer digit run cannot match, because the regex engine backtracks
`\d{1,3}` down to one digit and still finds a digit instead of `%`. -/
def hpHit (t : List Char) : Option (List Char) :=
  if startsWithCI hpLabel t then
    let r := (t.drop hpLabel.length).dropWhile isSpaceChar
    let ds := r.takeWhile isDigitChar
    if 1 ≤ ds.length && ds.length ≤ 3 && startsWithL (strL "%") (r.drop ds.length)
    then some ds
    else none
  else none

/-- Prefix of `s` ending at the first position where one of the (lower-cased,
case-insensitive) stop labels begins, or all of `s` when none occurs. This is
the lazy group `(.*?)` bounded by a lookahead alternation of the stop labels
or end-of-text. -/
def takeUntilStops (stops : List (List Char)) : List Char → List Char
  | [] => []
  | c :: cs =>
    if stops.any (fun st => startsWithCI st (c :: cs)) then []
    else c :: takeUntilStops stops cs

/-- Position matcher for `(?:Overall Message|Overall Feedback):\s*(.*)`
(IGNORECASE, DOTALL): at the first position where either label occurs, the
group is everything after the label to the end of the text. -/
def omHit (t : List Char) : Option (List Char) :=
  if startsWithCI omLabel t then some (t.drop omLabel.length)
  else if startsWithCI ofLabel t then some (t.drop ofLabel.length)
  else none

/-- The result record of `parse_overall_results`. -/
structure OverallResults where
  hiring_percentage : List Char
  areas_for_improvement : List Char
  overall_message : List Char
deriving DecidableEq, Repr

/-- Embedding of `parse_overall_results` (app.py lines 169-191): extract the
hiring percentage (digits plus `%`), the `Areas for Improvement:` block up to
the next known label or the end, and the `Overall Message:`/`Overall
Feedback:` block to the end; unfound fields keep their defaults, the message
defaulting to the whole stripped text. -/
def parse_overall_results (s : List Char) : OverallResults :=
  let hp :=
    match scanFor hpHit s with
    | some ds => ds ++ strL "%"
    | none => nA
  let afi :=
    match findAfterCI afiLabel s with
    | some rest => trimL (takeUntilStops [omLabel, ofLabel] rest)
    | none => nA
  let om :=
    match scanFor omHit s with
    | some rest => trimL rest
    | none => trimL s
  ⟨hp, afi, om⟩

/-- One `re.sub(r'\*\*(.*?)\*\*', r'\1', text)` pass: repeatedly drop the
first `**…**` bracket (lazy inner group, leftmost match first), keeping its
contents; text after the last complete bracket is left as is. The fuel
argument (`s.length` always suffices) bounds the number of replacements. -/
def stripBoldMarks : Nat → List Char → List Char
  | 0, s => s
  | fuel + 1, s =>
    match splitOnFirst (strL "**") s with
    | none => s
    | some (pre, rest) =>
      match splitOnFirst (strL "**") rest with
      | none => s
      | some (mid, rest2) => pre ++ mid ++ stripBoldMarks fuel rest2

/-- Embedding of the nested `clean_asterisks` helper (app.py lines 205-206):
remove markdown bold markers, then strip. -/
def clean_asterisks (s : List Char) : List Char :=
  trimL (stripBoldMarks s.length s)

/-- Lower-cased bolded `**Match Score:**` label. -/
def msBoldLabel : List Char := strL "**match score:**"

/-- Lower-cased bare `Match Score:` label of the fallback score pattern. -/
def msLabel : List Char := strL "match score:"

/-- Lower-cased `**Summary Message:**` label. -/
def smLabel : List Char := strL "**summary message:**"

/-- Lower-cased `**Original Resume Analysis - Areas for Improvement:**`
label. -/
def oraiLabel : List Char := strL "**original resume analysis - areas for improvement:**"

/-- Lower-cased `**Optimized Resume:**` label. -/
def orLabel : List Char := strL "**optimized resume:**"

/-- Lower-cased `**Analysis of Optimization Changes:**` label. -/
def aocLabel : List Char := strL "**analysis of optimization changes:**"

/-- Position matcher for `\*\*Match Score:\*\*\s*(\d{1,3}%)` (IGNORECASE):
one to three digits immediately followed by `%`, the group keeping the `%`. -/
def msBoldHit (t : List Char) : Option (List Char) :=
  if startsWithCI msBoldLabel t then
    let r := (t.drop msBoldLabel.length).dropWhile isSpaceChar
    let ds := r.takeWhile isDigitChar
    if 1 ≤ ds.length && ds.length ≤ 3 && startsWithL (strL "%") (r.drop ds.length)
    then some (ds ++ strL "%")
    else none
  else none

/-- Position matcher for the fallback `Match Score:\s*(\d{1,3})` (IGNORECASE):
at least one digit, the greedy group taking at most three. -/
def msPlainHit (t : List Char) : Option (List Char) :=
  if startsWithCI msLabel t then
    let r := (t.drop msLabel.length).dropWhile isSpaceChar
    let ds := (r.takeWhile isDigitChar).take 3
    if 1 ≤ ds.length then some ds else none
  else none

/-- Python's `str.split('\n')`. -/
def splitLinesL : List Char → List (List Char)
  | [] => [[]]
  | c :: cs =>
    if c = '\n' then [] :: splitLinesL cs
    else
      match splitLinesL cs with
      | l :: ls => (c :: l) :: ls
      | [] => [[c]]

/-- `re.sub(r"^[-\*]\s*", "", line)`: remove one leading bullet character and
the whitespace run after it. -/
def stripBullet : List Char → List Char
  | [] => []
  | c :: cs => if c = '-' || c = '*' then cs.dropWhile isSpaceChar else c :: cs

/-- The result record of `parse_resume_optimization_response`, with its
default sentinel values. -/
structure ResumeResults where
  match_score : List Char := nA
  summary_message : List Char := nA
  original_improvements : List (List Char) := []
  optimized_resume_text : List Char := strL "Could not generate optimized resume."
  changes_analysis : List Char := strL "Could not generate analysis of changes."
deriving DecidableEq, Repr

/-- Embedding of `parse_resume_optimization_response` (app.py lines 195-245):
five labelled sections, each ended by the next known label or end-of-text;
bold markers are removed from every extracted field except the optimized
resume body; the improvements block is split on line breaks, each kept line
losing a leading bullet marker, blank lines being discarded; a score match
missing `%` is recovered by the bare-digits fallback and `%` is appended. -/
def parse_resume_optimization_response (s : List Char) : ResumeResults :=
  let ms :=
    match scanFor msBoldHit s with
    | some g => g
    | none =>
      match scanFor msPlainHit s with
      | some ds => ds ++ strL "%"
      | none => nA
  let sm :=
    match findAfterCI smLabel s with
    | some rest => clean_asterisks (trimL (takeUntilStops [oraiLabel, orLabel] rest))
    | none => nA
  let imps :=
    match findAfterCI oraiLabel s with
    | some rest =>
      let rawAreas := splitLinesL (trimL (takeUntilStops [orLabel] rest))
      (rawAreas.filter (fun line => !(trimL line).isEmpty)).map
        (fun line => clean_asterisks (trimL (stripBullet line)))
    | none => []
  let orT :=
    match findAfterCI orLabel s with
    | some rest => trimL (takeUntilStops [aocLabel] rest)
    | none => strL "Could not generate optimized resume."
  let ca :=
    match findAfterCI aocLabel s with
    | some rest => clean_asterisks (trimL rest)
    | none => strL "Could not generate analysis of changes."
  ⟨ms, sm, imps, orT, ca⟩

/-- Maximum number of questions generated for the Interview Coach feature. -/
def MAX_INITIAL_QUESTIONS : Nat := 5

/-- Maximum number of questions in a Practice Interview session. -/
def MAX_PRACTICE_QUESTIONS : Nat := 5

/-- One entry of a session's `questions_data` JSON list. A freshly generated
entry carries only `question` and `answer` (the ideal answer); practice-mode
evaluation later merges in `user_answer` and `ai_feedback`. -/
structure QRec where
  question : List Char
  answer : List Char
  user_answer : Option (List Char) := none
  ai_feedback : Option (List Char) := none
deriving DecidableEq, Repr

/-- A JSON value appearing in the AJAX responses. -/
inductive Jv where
  | str (v : List Char)
  | num (v : Nat)
deriving DecidableEq, Repr

/-- Outcome of a question endpoint: a JSON object (ordered key/value pairs as
written in the source's `jsonify` call) or a JSON error with an HTTP status. -/
inductive HResp where
  | ok (payload : List (String × Jv))
  | err (code : Nat) (msg : String)
deriving DecidableEq, Repr

/-- Embedding of the coach-mode question endpoint `get_question` (app.py
lines 590-712) for a valid coach session. `questions` is the parsed
`questions_data` list, `index` the requested index (Flask's `<int:index>`
converter admits only non-negative integers), and `raw` the stripped gateway
completion used when a new question must be generated. Returns the JSON
response together with the persisted question list after the request. -/
def get_question (questions : List QRec) (index : Nat) (raw : List Char) :
    HResp × List QRec :=
  if h : index < questions.length then
    (.ok [("question", .str (questions.get ⟨index, h⟩).question),
          ("answer", .str (questions.get ⟨index, h⟩).answer),
          ("index", .num index),
          ("total", .num MAX_INITIAL_QUESTIONS)], questions)
  else if index = questions.length then
    if MAX_INITIAL_QUESTIONS ≤ questions.length then
      (.err 400 "Maximum questions reached.", questions)
    else
      match parse_ai_response raw with
      | [] => (.err 500 "Failed to generate a new question. AI response was malformed.",
               questions)
      | qa :: _ =>
        (.ok [("question", .str qa.question),
              ("answer", .str qa.answer),
              ("index", .num index),
              ("total", .num MAX_INITIAL_QUESTIONS)],
         questions ++ [{ question := qa.question, answer := qa.answer }])
  else
    (.err 404 "Invalid question index requested.", questions)

/-- Embedding of the practice-mode question endpoint
`practice_interview_question` (app.py lines 778-900) for a valid practice
session. Identical protocol to `get_question`, but the success payload does
not carry the ideal answer. -/
def practice_interview_question (questions : List QRec) (index : Nat)
    (raw : List Char) : HResp × List QRec :=
  if h : index < questions.length then
    (.ok [("question", .str (questions.get ⟨index, h⟩).question),
          ("index", .num index),
          ("total", .num MAX_PRACTICE_QUESTIONS)], questions)
  else if index = questions.length then
    if MAX_PRACTICE_QUESTIONS ≤ questions.length then
      (.err 400 "Maximum practice questions reached.", questions)
    else
      match parse_ai_response raw with
      | [] => (.err 500 "Failed to generate a new practice question. AI response was malformed.",
               questions)
      | qa :: _ =>
        (.ok [("question", .str qa.question),
              ("index", .num index),
              ("total", .num MAX_PRACTICE_QUESTIONS)],
         questions ++ [{ question := qa.question, answer := qa.answer }])
  else
    (.err 404 "Invalid practice question index requested.", questions)

/-- Outcome of the `practice_evaluate` endpoint. -/
inductive EvalResp where
  | redirect (target : String)
  | feedbackOk (feedback : List Char)
  | err (code : Nat) (msg : String)
deriving DecidableEq, Repr

/-- The in-place record update of app.py lines 991-1004: merge the user's
answer and the AI feedback into the entry at `i`; the source's fallback
branch appends a fresh entry when `i` is out of bounds (unreachable there,
because the handler has already rejected such an index with a 404). -/
def updateEval (l : List QRec) (i : Nat) (qt ia ua fb : List Char) :
    List QRec :=
  if h : i < l.length then
    l.set i { l.get ⟨i, h⟩ with user_answer := some ua, ai_feedback := some fb }
  else
    l ++ [{ question := qt, answer := ia, user_answer := some ua,
            ai_feedback := some fb }]

/-- Embedding of `practice_evaluate` (app.py lines 902-1035) for a valid
practice session. `q_index` is the JSON `index` field (`none` when absent or
not an integer), `user_answer_raw` the submitted answer, and `feedback_raw`
the gateway's evaluation text. Returns the JSON outcome and the persisted
question list after the request. -/
def practice_evaluate (questions : List QRec) (q_index : Option Int)
    (user_answer_raw : List Char) (feedback_raw : List Char) :
    EvalResp × List QRec :=
  let user_answer := trimL user_answer_raw
  match q_index with
  | none => (.err 400 "Invalid question index for evaluation.", questions)
  | some qi =>
    if ¬ (0 ≤ qi ∧ qi < (MAX_PRACTICE_QUESTIONS : Int)) then
      (.err 400 "Invalid question index for evaluation.", questions)
    else if user_answer = [] then
      (.err 400 "Your answer cannot be empty. Please provide a response.", questions)
    else if h : questions.length ≤ qi.toNat then
      (.err 404 "Question data not found for evaluation.", questions)
    else
      let i := qi.toNat
      have hi : i < questions.length := Nat.lt_of_not_le h
      let question_text := (questions.get ⟨i, hi⟩).question
      let ideal_answer := (questions.get ⟨i, hi⟩).answer
      let feedback_text := trimL feedback_raw
      let updated := updateEval questions i question_text ideal_answer
        user_answer feedback_text
      if updated.length = MAX_PRACTICE_QUESTIONS then
        (.redirect "practice_results", updated)
      else
        (.feedbackOk feedback_text, updated)

/-- Decimal rendering of a natural number as characters. -/
def natChars (n : Nat) : List Char := (toString n).toList

/-- The per-question block of the overall-feedback prompt
(app.py lines 271-276). The f-string subscripts `data['user_answer']` and
`data['ai_feedback']`, so a record missing either key raises `KeyError`:
the result is `none` in that case. -/
def recBlock (i : Nat) (r : QRec) : Option (List Char) :=
  match r.user_answer, r.ai_feedback with
  | some ua, some fb =>
    some (strL "--- Question " ++ natChars (i + 1) ++ strL " ---\n" ++
          strL "Question: " ++ r.question ++ strL "\n" ++
          strL "Ideal Answer: " ++ r.answer ++ strL "\n" ++
          strL "Your Answer: " ++ ua ++ strL "\n" ++
          strL "Individual Feedback: " ++ fb ++ strL "\n\n")
  | _, _ => none

/-- The enumerated concatenation of all per-question blocks; `none` as soon
as any record lacks a user answer or feedback, mirroring the `KeyError`
raised by the prompt loop. -/
def recBlocks : Nat → List QRec → Option (List Char)
  | _, [] => some []
  | i, r :: rs =>
    match recBlock i r, recBlocks (i + 1) rs with
    | some b, some bs => some (b ++ bs)
    | _, _ => none

/-- The overall-assessment prompt built by
`generate_overall_practice_feedback` (app.py lines 258-282), or `none` when
the loop over `practice_data` raises `KeyError` on an unevaluated record.
The fixed header and trailing context sentence are abbreviated to their
leading words; only the success/failure split and the per-record fields
matter to the verified properties. -/
def buildOverallPrompt (practice_data : List QRec) : Option (List Char) :=
  match recBlocks 0 practice_data with
  | some blocks => some (strL "Review the following interview questions, ideal answers, ..." ++
                         blocks ++ strL "Considering the candidate's responses ...")
  | none => none

/-- Outcome of the `practice_results` page. -/
inductive PRResp where
  /-- Redirect back to the practice setup flow. -/
  | redirectPractice
  /-- An uncaught exception escapes the handler (server error). -/
  | crash
  /-- The results page is rendered after `gatewayCalls` aggregate model
  calls. -/
  | page (gatewayCalls : Nat)
deriving DecidableEq, Repr

/-- Embedding of `practice_results` (app.py lines 1037-1087).
`pointer` is the `current_practice_session_id` cookie value and `questions`
the parsed `questions_data` of the pointed-to practice session. Returns the
outcome and the session pointer after the request; the session row itself is
never deleted by this handler. When the list holds at least
`MAX_PRACTICE_QUESTIONS` records the handler builds the aggregate prompt:
an unevaluated record makes the prompt loop raise before the single gateway
call, and on success the pointer is popped after that one call. -/
def practice_results (pointer : Option Nat) (questions : List QRec) :
    PRResp × Option Nat :=
  match pointer with
  | none => (.redirectPractice, none)
  | some sid =>
    if questions = [] ∨ questions.length < MAX_PRACTICE_QUESTIONS then
      (.redirectPractice, some sid)
    else
      match buildOverallPrompt questions with
      | none => (.crash, some sid)
      | some _ => (.page 1, none)

/-- Join a list of lines with `\n`, Python's `"\n".join`. -/
def joinNL : List (List Char) → List Char
  | [] => []
  | [l] => l
  | l :: ls => l ++ '\n' :: joinNL ls

/-- The `ResumeOptimizationResult` row fields persisted by the resume
optimizer route. -/
structure SavedRow where
  match_score : List Char
  summary_message : List Char
  original_improvements : List Char
  optimized_resume_text : List Char
  changes_analysis : List Char
deriving DecidableEq, Repr

/-- Outcome of the resume-optimizer POST after the gateway call. -/
inductive ResumeOutcome where
  /-- The response is rejected as a failure; no row is created. -/
  | failure
  /-- A result row with these fields is created and persisted. -/
  | saved (row : SavedRow)
deriving DecidableEq, Repr

/-- Embedding of the post-gateway part of `resume_optimizer` (app.py lines
1150-1179): parse the stripped completion; when match score, improvements
and optimized resume all kept their sentinel defaults, surface an error and
store nothing; otherwise persist a row with the parsed fields, the
improvement list joined by newlines. -/
def resume_optimizer_decision (raw : List Char) : ResumeOutcome :=
  let parsed := parse_resume_optimization_response (trimL raw)
  if parsed.match_score = nA ∧ parsed.original_improvements = [] ∧
     parsed.optimized_resume_text = strL "Could not generate optimized resume." then
    .failure
  else
    .saved ⟨parsed.match_score, parsed.summary_message,
            joinNL parsed.original_improvements,
            parsed.optimized_resume_text, parsed.changes_analysis⟩

/-- A session's kind tag. -/
inductive SType where
  | coach
  | practice
deriving DecidableEq, Repr

/-- A persisted `PracticeSession` row, restricted to the fields the verified
properties depend on. -/
structure Sess where
  session_type : SType
  questions_data : List QRec
deriving DecidableEq, Repr

/-- One client request touching a session's question list. The `raw`
arguments carry the stripped gateway completion used on the generation or
evaluation path of that request. -/
inductive Op where
  /-- `GET /get-question/<index>` (coach endpoint). -/
  | getQ (index : Nat) (raw : List Char)
  /-- `GET /practice-interview-question/<index>`. -/
  | practQ (index : Nat) (raw : List Char)
  /-- `POST /practice-evaluate`. -/
  | evalQ (q_index : Option Int) (ans raw : List Char)
deriving DecidableEq, Repr

/-- The index of a question-generation request, when the operation is one. -/
def opIndex : Op → Option Nat
  | .getQ i _ => some i
  | .practQ i _ => some i
  | .evalQ _ _ _ => none

/-- The persisted session state after one request. Each handler first checks
that the session's type matches the endpoint and rejects the request without
touching the stored list otherwise. -/
def stepSess (s : Sess) (op : Op) : Sess :=
  match op with
  | .getQ i raw =>
    if s.session_type = .coach then
      { s with questions_data := (get_question s.questions_data i raw).2 }
    else s
  | .practQ i raw =>
    if s.session_type = .practice then
      { s with questions_data := (practice_interview_question s.questions_data i raw).2 }
    else s
  | .evalQ qi ans raw =>
    if s.session_type = .practice then
      { s with questions_data := (practice_evaluate s.questions_data qi ans raw).2 }
    else s

/-- The persisted session state after a sequence of requests. -/
def runOps (s : Sess) (ops : List Op) : Sess :=
  ops.foldl stepSess s

/-- The key list of a successful JSON response, `none` on an error. -/
def okKeys : HResp → Option (List String)
  | .ok l => some (l.map Prod.fst)
  | .err _ _ => none

/-- Number of records of a question list carrying both a user answer and AI
feedback, i.e. the evaluated records. -/
def evaluatedCount (l : List QRec) : Nat :=
  (l.filter fun r => r.user_answer.isSome && r.ai_feedback.isSome).length

/-- A practice session whose five questions have all been generated but none
evaluated yet. -/
def fiveUnanswered : List QRec :=
  [{ question := strL "q0", answer := strL "a0" },
   { question := strL "q1", answer := strL "a1" },
   { question := strL "q2", answer := strL "a2" },
   { question := strL "q3", answer := strL "a3" },
   { question := strL "q4", answer := strL "a4" }]

/-- A record has been evaluated when it carries both a user answer and AI
feedback. -/
def recComplete (r : QRec) : Bool :=
  r.user_answer.isSome && r.ai_feedback.isSome

/-- A pattern is overlap-free when none of its non-trivial suffixes is one of
its prefixes, so two of its occurrences can never overlap. Both question
labels and the `Answer:` label are overlap-free. -/
def overlapFree (pat : List Char) : Bool :=
  (List.range pat.length).all fun k => k == 0 || !(startsWithL (pat.drop k) pat)

/-- A representative resume-optimization completion exercising every section,
with bold emphasis inside the summary, improvement, resume and analysis
bodies. -/
def resumeSample : List Char :=
  strL "**Match Score:** 82%\n**Summary Message:** Good **fit** overall.\n**Original Resume Analysis - Areas for Improvement:**\n- Add **metrics**\n* Fix typos\n\n**Optimized Resume:** John **Doe**\nDev.\n**Analysis of Optimization Changes:** Made **better**."

/-! ## Claim theorems -/

/-- The in-bounds case of `updateEval` is the in-place record update. -/
theorem updateEval_of_lt (l : List QRec) (i : Nat) (qt ia ua fb : List Char)
    (h : i < l.length) :
    updateEval l i qt ia ua fb =
      l.set i { l.get ⟨i, h⟩ with user_answer := some ua, ai_feedback := some fb } := by
  simp [updateEval, dif_pos h]

/-- C1: on both question endpoints, an index below the stored length returns
the stored record and leaves the state unchanged; an index equal to a length
below the maximum (with a parsable completion) appends exactly one new
record, making the length `i + 1`; an index equal to the length at the
maximum is rejected with the limit error; a larger index is rejected with the
out-of-range error and no record is created; and an unparsable completion on
the generation path creates no record either. -/
theorem C1_question_protocol (qs : List QRec) (i : Nat) (raw : List Char) :
    (∀ h : i < qs.length,
      get_question qs i raw =
        (.ok [("question", .str (qs.get ⟨i, h⟩).question),
              ("answer", .str (qs.get ⟨i, h⟩).answer),
              ("index", .num i),
              ("total", .num MAX_INITIAL_QUESTIONS)], qs) ∧
      practice_interview_question qs i raw =
        (.ok [("question", .str (qs.get ⟨i, h⟩).question),
              ("index", .num i),
              ("total", .num MAX_PRACTICE_QUESTIONS)], qs)) ∧
    (i = qs.length → qs.length < MAX_INITIAL_QUESTIONS →
      ∀ qa rest, parse_ai_response raw = qa :: rest →
      (get_question qs i raw).2 =
        qs ++ [{ question := qa.question, answer := qa.answer }] ∧
      (get_question qs i raw).2.length = i + 1 ∧
      (practice_interview_question qs i raw).2 =
        qs ++ [{ question := qa.question, answer := qa.answer }] ∧
      (practice_interview_question qs i raw).2.length = i + 1) ∧
    (i = qs.length → qs.length < MAX_INITIAL_QUESTIONS →
      parse_ai_response raw = [] →
      (get_question qs i raw).2 = qs ∧
      (practice_interview_question qs i raw).2 = qs) ∧
    (i = qs.length → qs.length = MAX_INITIAL_QUESTIONS →
      get_question qs i raw = (.err 400 "Maximum questions reached.", qs) ∧
      practice_interview_question qs i raw =
        (.err 400 "Maximum practice questions reached.", qs)) ∧
    (qs.length < i →
      get_question qs i raw = (.err 404 "Invalid question index requested.", qs) ∧
      practice_interview_question qs i raw =
        (.err 404 "Invalid practice question index requested.", qs)) := by
  refine ⟨fun h => ?_, fun hi hlt qa rest hp => ?_, fun hi hlt hp => ?_,
    fun hi hmax => ?_, fun hgt => ?_⟩
  · exact ⟨by simp only [get_question, dif_pos h],
      by simp only [practice_interview_question, dif_pos h]⟩
  · have hni : ¬ i < qs.length := by omega
    have hle : ¬ MAX_INITIAL_QUESTIONS ≤ qs.length := by
      simpa [MAX_INITIAL_QUESTIONS] using hlt
    have hle' : ¬ MAX_PRACTICE_QUESTIONS ≤ qs.length := hle
    refine ⟨?_, ?_, ?_, ?_⟩ <;>
      simp [get_question, practice_interview_question, dif_neg hni,
        if_pos hi, hle, hle', hp, hi]
  · have hni : ¬ i < qs.length := by omega
    have hle : ¬ MAX_INITIAL_QUESTIONS ≤ qs.length := by
      simpa [MAX_INITIAL_QUESTIONS] using hlt
    have hle' : ¬ MAX_PRACTICE_QUESTIONS ≤ qs.length := hle
    constructor <;>
      simp [get_question, practice_interview_question, dif_neg hni,
        if_pos hi, hle, hle', hp]
  · have hni : ¬ i < qs.length := by omega
    have hle : MAX_INITIAL_QUESTIONS ≤ qs.length := hmax.ge
    have hle' : MAX_PRACTICE_QUESTIONS ≤ qs.length := hle
    constructor <;>
      simp [get_question, practice_interview_question, dif_neg hni,
        if_pos hi, hle, hle']
  · have hni : ¬ i < qs.length := by omega
    have hne : ¬ i = qs.length := by omega
    constructor <;>
      simp [get_question, practice_interview_question, dif_neg hni, hne]

/-- C1 witness: a session with one stored record returns it unchanged at
index 0, and at index 1 with a well-formed completion exactly one record is
appended, making the length 2. -/
theorem C1_question_protocol_witness :
    (get_question [{ question := strL "q0", answer := strL "a0" }] 0
        (strL "ignored")).2 = [{ question := strL "q0", answer := strL "a0" }] ∧
    (get_question [{ question := strL "q0", answer := strL "a0" }] 1
        (strL "Question: A Answer: B")).2.length = 2 := by
  have h₁ := (C1_question_protocol [{ question := strL "q0", answer := strL "a0" }] 0
    (strL "ignored")).1 (by decide)
  have h₂ := ((C1_question_protocol [{ question := strL "q0", answer := strL "a0" }] 1
    (strL "Question: A Answer: B")).2.1 (by decide) (by decide)
    ⟨strL "A", strL "B"⟩ [] (by decide))
  exact ⟨congrArg Prod.snd h₁.1, h₂.2.1⟩

/-- C4: the practice evaluate endpoint rejects a missing or out-of-range
index and an answer that is empty after trimming, each time leaving the
stored list unchanged; with a valid index below the stored length it merges
the trimmed answer and feedback into the record at that index in place,
leaving the length and every other record unchanged. -/
theorem C4_evaluate_validation (qs : List QRec) (ans fb : List Char) :
    (practice_evaluate qs none ans fb =
      (.err 400 "Invalid question index for evaluation.", qs)) ∧
    (∀ z : Int, z < 0 ∨ (MAX_PRACTICE_QUESTIONS : Int) ≤ z →
      practice_evaluate qs (some z) ans fb =
        (.err 400 "Invalid question index for evaluation.", qs)) ∧
    (∀ z : Int, 0 ≤ z → z < (MAX_PRACTICE_QUESTIONS : Int) → trimL ans = [] →
      practice_evaluate qs (some z) ans fb =
        (.err 400 "Your answer cannot be empty. Please provide a response.", qs)) ∧
    (∀ z : Int, 0 ≤ z → z < (MAX_PRACTICE_QUESTIONS : Int) → trimL ans ≠ [] →
      qs.length ≤ z.toNat →
      practice_evaluate qs (some z) ans fb =
        (.err 404 "Question data not found for evaluation.", qs)) ∧
    (∀ z : Int, 0 ≤ z → z < (MAX_PRACTICE_QUESTIONS : Int) → trimL ans ≠ [] →
      ∀ h : z.toNat < qs.length,
      (practice_evaluate qs (some z) ans fb).2 =
        qs.set z.toNat { qs.get ⟨z.toNat, h⟩ with
          user_answer := some (trimL ans), ai_feedback := some (trimL fb) } ∧
      (practice_evaluate qs (some z) ans fb).2.length = qs.length ∧
      (∀ j, j ≠ z.toNat →
        (practice_evaluate qs (some z) ans fb).2[j]? = qs[j]?)) := by
  refine ⟨?_, fun z hz => ?_, fun z hz0 hz5 hemp => ?_,
    fun z hz0 hz5 hne hge => ?_, fun z hz0 hz5 hne h => ?_⟩
  · simp [practice_evaluate]
  · have : ¬ (0 ≤ z ∧ z < (MAX_PRACTICE_QUESTIONS : Int)) := by
      rcases hz with hz | hz <;> omega
    simp [practice_evaluate, this]
  · have hv : ¬ ¬ (0 ≤ z ∧ z < (MAX_PRACTICE_QUESTIONS : Int)) :=
      not_not_intro ⟨hz0, hz5⟩
    simp only [practice_evaluate]
    rw [if_neg hv, if_pos hemp]
  · have hv : ¬ ¬ (0 ≤ z ∧ z < (MAX_PRACTICE_QUESTIONS : Int)) :=
      not_not_intro ⟨hz0, hz5⟩
    simp only [practice_evaluate]
    rw [if_neg hv, if_neg hne, dif_pos hge]
  · have hv : ¬ ¬ (0 ≤ z ∧ z < (MAX_PRACTICE_QUESTIONS : Int)) :=
      not_not_intro ⟨hz0, hz5⟩
    have hlt : ¬ qs.length ≤ z.toNat := by omega
    have hres : (practice_evaluate qs (some z) ans fb).2 =
        qs.set z.toNat { qs.get ⟨z.toNat, h⟩ with
          user_answer := some (trimL ans), ai_feedback := some (trimL fb) } := by
      simp only [practice_evaluate]
      rw [if_neg hv, if_neg hne, dif_neg hlt]
      rw [updateEval_of_lt _ _ _ _ _ _ h]
      split <;> rfl
    refine ⟨hres, ?_, fun j hj => ?_⟩
    · rw [hres, List.length_set]
    · rw [hres, List.getElem?_set_ne (Ne.symm hj)]

/-- C4 witness: evaluating index 0 of a one-question session with a
non-empty answer updates that record in place, keeping the length at 1. -/
theorem C4_evaluate_validation_witness :
    (practice_evaluate [{ question := strL "q0", answer := strL "a0" }]
      (some 0) (strL " hi ") (strL "fb")).2.length = 1 := by
  have h := ((C4_evaluate_validation [{ question := strL "q0", answer := strL "a0" }]
    (strL " hi ") (strL "fb")).2.2.2.2 0 (by decide) (by decide) (by decide)
    (by decide))
  exact h.2.1

/-- The coach question endpoint either leaves the stored list unchanged or,
exactly when the requested index equals a length below the maximum, appends
one record. -/
theorem get_question_state (qs : List QRec) (i : Nat) (raw : List Char) :
    (get_question qs i raw).2 = qs ∨
    (i = qs.length ∧ qs.length < MAX_INITIAL_QUESTIONS ∧ ∃ qa : QA,
      (get_question qs i raw).2 =
        qs ++ [{ question := qa.question, answer := qa.answer }]) := by
  by_cases h : i < qs.length
  · left; simp [get_question, dif_pos h]
  · by_cases he : i = qs.length
    · by_cases hm : MAX_INITIAL_QUESTIONS ≤ qs.length
      · left; simp [get_question, dif_neg h, if_pos he, if_pos hm]
      · cases hp : parse_ai_response raw with
        | nil => left; simp [get_question, dif_neg h, if_pos he, if_neg hm, hp]
        | cons qa rest =>
          exact Or.inr ⟨he, Nat.not_le.mp hm, qa,
            by simp [get_question, dif_neg h, if_pos he, if_neg hm, hp]⟩
    · left; simp [get_question, dif_neg h, if_neg he]

/-- The practice question endpoint either leaves the stored list unchanged
or, exactly when the requested index equals a length below the maximum,
appends one record. -/
theorem practice_interview_question_state (qs : List QRec) (i : Nat)
    (raw : List Char) :
    (practice_interview_question qs i raw).2 = qs ∨
    (i = qs.length ∧ qs.length < MAX_PRACTICE_QUESTIONS ∧ ∃ qa : QA,
      (practice_interview_question qs i raw).2 =
        qs ++ [{ question := qa.question, answer := qa.answer }]) := by
  by_cases h : i < qs.length
  · left; simp [practice_interview_question, dif_pos h]
  · by_cases he : i = qs.length
    · by_cases hm : MAX_PRACTICE_QUESTIONS ≤ qs.length
      · left; simp [practice_interview_question, dif_neg h, if_pos he, if_pos hm]
      · cases hp : parse_ai_response raw with
        | nil =>
          left; simp [practice_interview_question, dif_neg h, if_pos he, if_neg hm, hp]
        | cons qa rest =>
          exact Or.inr ⟨he, Nat.not_le.mp hm, qa,
            by simp [practice_interview_question, dif_neg h, if_pos he, if_neg hm, hp]⟩
    · left; simp [practice_interview_question, dif_neg h, if_neg he]

/-- The evaluate endpoint either leaves the stored list unchanged or updates
one existing record in place, setting only the answer/feedback fields. -/
theorem practice_evaluate_state (qs : List QRec) (qi : Option Int)
    (ans fb : List Char) :
    (practice_evaluate qs qi ans fb).2 = qs ∨
    ∃ (i : Nat) (h : i < qs.length),
      (practice_evaluate qs qi ans fb).2 =
        qs.set i { qs.get ⟨i, h⟩ with
          user_answer := some (trimL ans), ai_feedback := some (trimL fb) } := by
  cases qi with
  | none => left; simp [practice_evaluate]
  | some z =>
    by_cases hv : 0 ≤ z ∧ z < (MAX_PRACTICE_QUESTIONS : Int)
    · by_cases hemp : trimL ans = []
      · left
        simp only [practice_evaluate]
        rw [if_neg (not_not_intro hv), if_pos hemp]
      · by_cases hge : qs.length ≤ z.toNat
        · left
          simp only [practice_evaluate]
          rw [if_neg (not_not_intro hv), if_neg hemp, dif_pos hge]
        · have h : z.toNat < qs.length := Nat.not_le.mp hge
          refine Or.inr ⟨z.toNat, h, ?_⟩
          simp only [practice_evaluate]
          rw [if_neg (not_not_intro hv), if_neg hemp, dif_neg hge,
            updateEval_of_lt _ _ _ _ _ _ h]
          split <;> rfl
    · left
      simp only [practice_evaluate]
      rw [if_pos hv]

/-- One request either keeps the stored list, appends one freshly generated
record at an index equal to a length below 5, or rewrites the answer and
feedback fields of one existing record. -/
theorem stepSess_cases (s : Sess) (op : Op) :
    (stepSess s op).questions_data = s.questions_data ∨
    (∃ r, (stepSess s op).questions_data = s.questions_data ++ [r] ∧
      s.questions_data.length < 5 ∧
      opIndex op = some s.questions_data.length) ∨
    (∃ (i : Nat) (h : i < s.questions_data.length)
        (ua fb : Option (List Char)),
      (stepSess s op).questions_data =
        s.questions_data.set i
          { s.questions_data.get ⟨i, h⟩ with
            user_answer := ua, ai_feedback := fb }) := by
  cases op with
  | getQ i raw =>
    by_cases ht : s.session_type = SType.coach
    · rcases get_question_state s.questions_data i raw with h | ⟨he, hlt, qa, h⟩
      · left; simp [stepSess, ht, h]
      · exact Or.inr (Or.inl ⟨{ question := qa.question, answer := qa.answer },
          by simp [stepSess, ht, h], hlt, by simp [opIndex, he]⟩)
    · left; simp [stepSess, ht]
  | practQ i raw =>
    by_cases ht : s.session_type = SType.practice
    · rcases practice_interview_question_state s.questions_data i raw with
        h | ⟨he, hlt, qa, h⟩
      · left; simp [stepSess, ht, h]
      · exact Or.inr (Or.inl ⟨{ question := qa.question, answer := qa.answer },
          by simp [stepSess, ht, h], hlt, by simp [opIndex, he]⟩)
    · left; simp [stepSess, ht]
  | evalQ qi ans raw =>
    by_cases ht : s.session_type = SType.practice
    · rcases practice_evaluate_state s.questions_data qi ans raw with
        h | ⟨i, h, heq⟩
      · left; simp [stepSess, ht, h]
      · exact Or.inr (Or.inr ⟨i, h, some (trimL ans), some (trimL raw),
          by simp [stepSess, ht, heq]⟩)
    · left; simp [stepSess, ht]

/-- One request preserves the five-question bound on the stored list. -/
theorem stepSess_le (s : Sess) (op : Op)
    (hlen : s.questions_data.length ≤ 5) :
    (stepSess s op).questions_data.length ≤ 5 := by
  rcases stepSess_cases s op with h | ⟨r, h, hlt, _⟩ | ⟨i, hi, ua, fb, h⟩
  · rw [h]; exact hlen
  · rw [h]; simp; omega
  · rw [h, List.length_set]; exact hlen

/-- C5: starting from a session whose stored list respects the five-question
bound, any single request keeps the bound, never shrinks the list, preserves
the question and ideal-answer text of every stored record, and grows the list
only by exactly one record and only when the requested index equals the
previous length; consequently any sequence of requests keeps the bound. -/
theorem C5_append_only_invariant (s : Sess) (op : Op) (ops : List Op)
    (hlen : s.questions_data.length ≤ 5) :
    ((stepSess s op).questions_data.length ≤ 5) ∧
    (s.questions_data.length ≤ (stepSess s op).questions_data.length) ∧
    (∀ (j : Nat) (r : QRec), s.questions_data[j]? = some r → ∃ r' : QRec,
      (stepSess s op).questions_data[j]? = some r' ∧
      r'.question = r.question ∧ r'.answer = r.answer) ∧
    ((stepSess s op).questions_data.length ≠ s.questions_data.length →
      (stepSess s op).questions_data.length = s.questions_data.length + 1 ∧
      opIndex op = some s.questions_data.length) ∧
    ((runOps s ops).questions_data.length ≤ 5) := by
  refine ⟨stepSess_le s op hlen, ?_, ?_, ?_, ?_⟩
  · rcases stepSess_cases s op with h | ⟨r, h, _, _⟩ | ⟨i, hi, ua, fb, h⟩ <;>
      rw [h] <;> simp
  · intro j r hj
    have hjlt : j < s.questions_data.length := (List.getElem?_eq_some.mp hj).fst
    rcases stepSess_cases s op with h | ⟨r', h, _, _⟩ | ⟨i, hi, ua, fb, h⟩
    · exact ⟨r, by rw [h]; exact hj, rfl, rfl⟩
    · refine ⟨r, ?_, rfl, rfl⟩
      rw [h, List.getElem?_append, if_pos hjlt]
      exact hj
    · by_cases hji : j = i
      · subst hji
        have hr : s.questions_data[j] = r := (List.getElem?_eq_some.mp hj).snd
        refine ⟨{ s.questions_data.get ⟨j, hi⟩ with
            user_answer := ua, ai_feedback := fb }, ?_, ?_, ?_⟩
        · rw [h, List.getElem?_set, if_pos rfl, if_pos hjlt]
        · simp [List.get_eq_getElem, hr]
        · simp [List.get_eq_getElem, hr]
      · refine ⟨r, ?_, rfl, rfl⟩
        rw [h, List.getElem?_set_ne (fun he => hji he.symm)]
        exact hj
  · intro hne
    rcases stepSess_cases s op with h | ⟨r, h, _, hop⟩ | ⟨i, hi, ua, fb, h⟩
    · exact absurd (by rw [h]) hne
    · constructor
      · rw [h]; simp
      · exact hop
    · exact absurd (by rw [h, List.length_set]) hne
  · induction ops generalizing s with
    | nil => exact hlen
    | cons o os ih =>
      have := stepSess_le s o hlen
      simpa [runOps] using ih (stepSess s o) this

/-- C5 witness: a fresh practice session stays within the bound after one
generating request. -/
theorem C5_append_only_invariant_witness :
    (stepSess ⟨SType.practice, []⟩
      (Op.practQ 0 (strL "Question: A Answer: B"))).questions_data.length ≤ 5 := by
  exact (C5_append_only_invariant ⟨SType.practice, []⟩
    (Op.practQ 0 (strL "Question: A Answer: B")) [] (by decide)).1

/-- C2: the evaluate endpoint decides the redirect to the results view by
the stored list length alone (its own comment claims it checks that "all
practice questions have been evaluated"). On a session whose five questions
are all generated but unanswered, evaluating index 0 signals the redirect
although only one record is evaluated afterwards — the claimed
"evaluated count reaches 5" condition is violated. -/
theorem C2_redirect_despite_one_evaluated :
    evaluatedCount fiveUnanswered = 0 ∧
    fiveUnanswered.length = MAX_PRACTICE_QUESTIONS ∧
    (practice_evaluate fiveUnanswered (some 0) (strL "my answer")
      (strL "Good start.")).1 = .redirect "practice_results" ∧
    evaluatedCount (practice_evaluate fiveUnanswered (some 0) (strL "my answer")
      (strL "Good start.")).2 = 1 := by
  refine ⟨by decide, by decide, ?_, ?_⟩ <;> decide

/-- The per-record prompt block exists exactly when the record has been
evaluated. -/
theorem recBlock_isSome (i : Nat) (r : QRec) :
    (recBlock i r).isSome = true ↔ recComplete r = true := by
  cases hua : r.user_answer <;> cases hfb : r.ai_feedback <;>
    simp [recBlock, recComplete, hua, hfb]

/-- The prompt body exists exactly when every record has been evaluated. -/
theorem recBlocks_isSome (l : List QRec) : ∀ i : Nat,
    (recBlocks i l).isSome = true ↔ ∀ r ∈ l, recComplete r = true := by
  induction l with
  | nil => intro i; simp [recBlocks]
  | cons r rs ih =>
    intro i
    simp only [recBlocks]
    constructor
    · intro h
      cases hb : recBlock i r with
      | none => rw [hb] at h; simp at h
      | some b =>
        cases hbs : recBlocks (i + 1) rs with
        | none => rw [hb, hbs] at h; simp at h
        | some bs =>
          intro x hx
          rcases List.mem_cons.mp hx with hx | hx
          · subst hx
            exact (recBlock_isSome i x).mp (by rw [hb]; rfl)
          · exact ((ih (i + 1)).mp (by rw [hbs]; rfl)) x hx
    · intro h
      obtain ⟨b, hb⟩ := Option.isSome_iff_exists.mp
        ((recBlock_isSome i r).mpr (h r (List.mem_cons_self r rs)))
      obtain ⟨bs, hbs⟩ := Option.isSome_iff_exists.mp
        ((ih (i + 1)).mpr (fun x hx => h x (List.mem_cons_of_mem r hx)))
      rw [hb, hbs]
      rfl

/-- The aggregate prompt is built exactly when every record has been
evaluated. -/
theorem buildOverallPrompt_isSome (l : List QRec) :
    (buildOverallPrompt l).isSome = true ↔ ∀ r ∈ l, recComplete r = true := by
  rw [← recBlocks_isSome l 0]
  cases h : recBlocks 0 l <;> simp [buildOverallPrompt, h]

/-- C3 counterexample: a practice session with five generated but entirely
unevaluated records is not redirected back to the setup flow by the results
page, contradicting the claim; the handler instead escapes with an uncaught
error, leaving the session pointer in place. -/
theorem C3_results_counterexample :
    fiveUnanswered.length = MAX_PRACTICE_QUESTIONS ∧
    (∃ r ∈ fiveUnanswered, r.user_answer = none) ∧
    (practice_results (some 7) fiveUnanswered).1 ≠ PRResp.redirectPractice ∧
    practice_results (some 7) fiveUnanswered = (PRResp.crash, some 7) := by
  refine ⟨by decide, ⟨fiveUnanswered.head (by decide), by decide, by decide⟩, ?_, ?_⟩ <;>
    decide

/-- C3 (amended): the results page redirects back to the practice setup
flow, without any gateway call, exactly when the stored list has fewer than
five records (or no active session pointer exists); with five records it
does not check their completeness: when every record carries both a user
answer and feedback it renders the page after exactly one aggregate gateway
call and clears the active-session pointer, while an incomplete record makes
the handler raise an uncaught error with the pointer left in place. -/
theorem C3_results_behavior (sid : Nat) (qs : List QRec) :
    (practice_results none qs = (.redirectPractice, none)) ∧
    (qs.length < MAX_PRACTICE_QUESTIONS →
      practice_results (some sid) qs = (.redirectPractice, some sid)) ∧
    (qs.length = MAX_PRACTICE_QUESTIONS →
      (∀ r ∈ qs, recComplete r = true) →
      practice_results (some sid) qs = (.page 1, none)) ∧
    (qs.length = MAX_PRACTICE_QUESTIONS →
      ¬ (∀ r ∈ qs, recComplete r = true) →
      practice_results (some sid) qs = (.crash, some sid)) := by
  refine ⟨rfl, fun hlt => ?_, fun hlen hall => ?_, fun hlen hnot => ?_⟩
  · simp [practice_results, hlt]
  · have hne : ¬ (qs = [] ∨ qs.length < MAX_PRACTICE_QUESTIONS) := by
      rintro (h | h)
      · rw [h] at hlen; exact absurd hlen (by decide)
      · omega
    obtain ⟨p, hp⟩ := Option.isSome_iff_exists.mp
      ((buildOverallPrompt_isSome qs).mpr hall)
    simp [practice_results, hne, hp]
  · have hne : ¬ (qs = [] ∨ qs.length < MAX_PRACTICE_QUESTIONS) := by
      rintro (h | h)
      · rw [h] at hlen; exact absurd hlen (by decide)
      · omega
    have hnone : buildOverallPrompt qs = none := by
      rw [← Option.not_isSome_iff_eq_none]
      intro hs
      exact hnot ((buildOverallPrompt_isSome qs).mp hs)
    simp [practice_results, hne, hnone]

/-- C3 witness: with fewer than five records the results page redirects back
to setup, and with five complete records it renders after one gateway call
and clears the pointer. -/
theorem C3_results_behavior_witness :
    practice_results (some 3) [] = (.redirectPractice, some 3) ∧
    practice_results (some 3)
      (List.replicate 5
        { question := strL "q", answer := strL "a",
          user_answer := some (strL "u"), ai_feedback := some (strL "f") }) =
      (.page 1, none) := by
  refine ⟨(C3_results_behavior 3 []).2.1 (by decide), ?_⟩
  exact (C3_results_behavior 3 _).2.2.1 (by decide) (by decide)

/-- C9: the resume optimizer treats a completion as a failure — returning an
error and storing nothing — exactly when match score, improvement list and
optimized resume all kept their sentinel defaults after parsing; otherwise a
result row is created carrying the parsed fields, the improvements joined by
newlines. -/
theorem C9_resume_failure_gate (raw : List Char) :
    (resume_optimizer_decision raw = .failure ↔
      ((parse_resume_optimization_response (trimL raw)).match_score = nA ∧
       (parse_resume_optimization_response (trimL raw)).original_improvements = [] ∧
       (parse_resume_optimization_response (trimL raw)).optimized_resume_text =
         strL "Could not generate optimized resume.")) ∧
    (resume_optimizer_decision raw ≠ .failure →
      resume_optimizer_decision raw = .saved
        ⟨(parse_resume_optimization_response (trimL raw)).match_score,
         (parse_resume_optimization_response (trimL raw)).summary_message,
         joinNL (parse_resume_optimization_response (trimL raw)).original_improvements,
         (parse_resume_optimization_response (trimL raw)).optimized_resume_text,
         (parse_resume_optimization_response (trimL raw)).changes_analysis⟩) := by
  by_cases hc : (parse_resume_optimization_response (trimL raw)).match_score = nA ∧
      (parse_resume_optimization_response (trimL raw)).original_improvements = [] ∧
      (parse_resume_optimization_response (trimL raw)).optimized_resume_text =
        strL "Could not generate optimized resume."
  · constructor
    · simp [resume_optimizer_decision, hc]
    · intro hne
      exact absurd (by simp [resume_optimizer_decision, hc]) hne
  · constructor
    · simp [resume_optimizer_decision, hc]
    · intro _
      simp [resume_optimizer_decision, hc]

/-- C9 witness: a completion with none of the three sections is rejected,
and one carrying a bare match score is persisted. -/
theorem C9_resume_failure_gate_witness :
    resume_optimizer_decision (strL "nothing recognizable") = .failure ∧
    resume_optimizer_decision (strL "Match Score: 82") ≠ .failure := by
  constructor
  · exact (C9_resume_failure_gate (strL "nothing recognizable")).1.mpr (by decide)
  · intro h
    have := (C9_resume_failure_gate (strL "Match Score: 82")).1.mp h
    exact absurd this.1 (by decide)

/-- C10: every successful JSON response of the practice question endpoint
carries exactly the keys `question`, `index` and `total` — in particular no
`answer` field, so the practice client never receives the stored ideal
answer before evaluation — while the coach endpoint's successful response
carries the stored ideal answer under its `answer` key. -/
theorem C10_payload_shape (qs : List QRec) (i : Nat) (raw : List Char) :
    (∀ payload, (practice_interview_question qs i raw).1 = .ok payload →
      payload.map Prod.fst = ["question", "index", "total"] ∧
      ∀ v, ("answer", v) ∉ payload) ∧
    (∀ h : i < qs.length,
      (practice_interview_question qs i raw).1 =
        .ok [("question", .str (qs.get ⟨i, h⟩).question),
             ("index", .num i), ("total", .num MAX_PRACTICE_QUESTIONS)]) ∧
    (∀ h : i < qs.length,
      (get_question qs i raw).1 =
        .ok [("question", .str (qs.get ⟨i, h⟩).question),
             ("answer", .str (qs.get ⟨i, h⟩).answer),
             ("index", .num i), ("total", .num MAX_INITIAL_QUESTIONS)]) ∧
    (∀ qa rest, parse_ai_response raw = qa :: rest → i = qs.length →
      qs.length < MAX_INITIAL_QUESTIONS →
      (get_question qs i raw).1 =
        .ok [("question", .str qa.question), ("answer", .str qa.answer),
             ("index", .num i), ("total", .num MAX_INITIAL_QUESTIONS)]) := by
  have keyfact : ∀ payload, (practice_interview_question qs i raw).1 = .ok payload →
      payload.map Prod.fst = ["question", "index", "total"] := by
    intro payload hp
    by_cases h : i < qs.length
    · simp [practice_interview_question, dif_pos h] at hp
      rw [← hp]; rfl
    · by_cases he : i = qs.length
      · by_cases hm : MAX_PRACTICE_QUESTIONS ≤ qs.length
        · simp [practice_interview_question, dif_neg h, if_pos he, if_pos hm] at hp
        · cases hq : parse_ai_response raw with
          | nil =>
            simp [practice_interview_question, dif_neg h, if_pos he, if_neg hm, hq] at hp
          | cons qa rest =>
            simp [practice_interview_question, dif_neg h, if_pos he, if_neg hm, hq] at hp
            rw [← hp]; rfl
      · simp [practice_interview_question, dif_neg h, if_neg he] at hp
  refine ⟨fun payload hp => ⟨keyfact payload hp, fun v hv => ?_⟩,
    fun h => by simp [practice_interview_question, dif_pos h],
    fun h => by simp [get_question, dif_pos h],
    fun qa rest hq he hm => ?_⟩
  · have hmem : "answer" ∈ payload.map Prod.fst :=
      List.mem_map_of_mem Prod.fst hv
    rw [keyfact payload hp] at hmem
    exact absurd hmem (by decide)
  · have hni : ¬ i < qs.length := by omega
    have hle : ¬ MAX_INITIAL_QUESTIONS ≤ qs.length := fun hx => absurd hx (by omega)
    simp [get_question, dif_neg hni, if_pos he, if_neg hle, hq]

/-- C10 witness: on a one-question session the practice endpoint's stored
response has exactly the three keys and the coach endpoint's carries the
ideal answer. -/
theorem C10_payload_shape_witness :
    (practice_interview_question
        [{ question := strL "q0", answer := strL "a0" }] 0 (strL "x")).1 =
      .ok [("question", .str (strL "q0")), ("index", .num 0),
           ("total", .num MAX_PRACTICE_QUESTIONS)] ∧
    (get_question [{ question := strL "q0", answer := strL "a0" }] 0
        (strL "x")).1 =
      .ok [("question", .str (strL "q0")), ("answer", .str (strL "a0")),
           ("index", .num 0), ("total", .num MAX_INITIAL_QUESTIONS)] := by
  have h := C10_payload_shape [{ question := strL "q0", answer := strL "a0" }] 0 (strL "x")
  exact ⟨h.2.1 (by decide), h.2.2.1 (by decide)⟩

/-! ## String-scanning lemmas -/

/-- `startsWithL` is the prefix relation. -/
theorem startsWithL_iff (p : List Char) : ∀ s : List Char,
    startsWithL p s = true ↔ ∃ t, s = p ++ t := by
  induction p with
  | nil => intro s; simp [startsWithL]
  | cons a p ih =>
    intro s
    cases s with
    | nil =>
      simp only [startsWithL]
      constructor
      · intro h; exact absurd h (by simp)
      · rintro ⟨t, ht⟩; exact absurd ht (by simp)
    | cons c cs =>
      simp only [startsWithL, Bool.and_eq_true, decide_eq_true_eq, ih]
      constructor
      · rintro ⟨rfl, t, rfl⟩; exact ⟨t, rfl⟩
      · rintro ⟨t, ht⟩
        injection ht with h1 h2
        exact ⟨h1.symm, t, h2⟩

/-- A successful split decomposes the text around the pattern. -/
theorem splitOnFirst_some_eq (pat : List Char) : ∀ (s pre post : List Char),
    splitOnFirst pat s = some (pre, post) → s = pre ++ (pat ++ post) := by
  intro s
  induction s with
  | nil =>
    intro pre post h
    simp only [splitOnFirst] at h
    by_cases hp : pat.isEmpty
    · rw [if_pos hp] at h
      simp only [Option.some.injEq, Prod.mk.injEq] at h
      obtain ⟨h1, h2⟩ := h
      subst h1; subst h2
      have : pat = [] := by simpa [List.isEmpty_iff] using hp
      simp [this]
    · rw [if_neg hp] at h
      exact absurd h (by simp)
  | cons c cs ih =>
    intro pre post h
    simp only [splitOnFirst] at h
    by_cases hs : startsWithL pat (c :: cs) = true
    · rw [if_pos hs] at h
      simp only [Option.some.injEq, Prod.mk.injEq] at h
      obtain ⟨h1, h2⟩ := h
      subst h1
      obtain ⟨t, ht⟩ := (startsWithL_iff pat (c :: cs)).mp hs
      subst h2
      rw [ht, List.drop_left' rfl]
      simp
    · rw [if_neg hs] at h
      cases hr : splitOnFirst pat cs with
      | none => rw [hr] at h; exact absurd h (by simp)
      | some pr =>
        obtain ⟨pre', post'⟩ := pr
        rw [hr] at h
        simp only [Option.some.injEq, Prod.mk.injEq] at h
        obtain ⟨h1, h2⟩ := h
        rw [← h1, ← h2, List.cons_append, ih pre' post' hr]

/-- The split fails exactly when the pattern occurs at no position. -/
theorem splitOnFirst_none_iff (pat : List Char) (hpat : pat ≠ []) :
    ∀ s : List Char, splitOnFirst pat s = none ↔
      ∀ u v : List Char, s = u ++ v → startsWithL pat v = false := by
  intro s
  induction s with
  | nil =>
    simp only [splitOnFirst]
    rw [if_neg (by simpa [List.isEmpty_iff] using hpat)]
    constructor
    · intro _ u v huv
      have hv : v = [] := by
        cases u with
        | nil => simpa using huv.symm
        | cons a u' => exact absurd huv (by simp)
      subst hv
      cases pat with
      | nil => exact absurd rfl hpat
      | cons a p => rfl
    · intro _; rfl
  | cons c cs ih =>
    constructor
    · intro h u v huv
      by_cases hs : startsWithL pat (c :: cs) = true
      · rw [splitOnFirst, if_pos hs] at h
        exact absurd h (by simp)
      · have hrec : splitOnFirst pat cs = none := by
          rw [splitOnFirst, if_neg hs] at h
          cases hr : splitOnFirst pat cs with
          | none => rfl
          | some pr => rw [hr] at h; obtain ⟨a, b⟩ := pr; exact absurd h (by simp)
        cases u with
        | nil =>
          have : v = c :: cs := by simpa using huv.symm
          subst this
          exact Bool.eq_false_iff.mpr hs
        | cons a u' =>
          injection huv with h1 h2
          exact (ih.mp hrec) u' v h2
    · intro h
      have hs : startsWithL pat (c :: cs) = false := h [] (c :: cs) rfl
      rw [splitOnFirst, if_neg (by simp [hs])]
      have hrec : splitOnFirst pat cs = none :=
        ih.mpr (fun u v huv => h (c :: u) v (by rw [huv]; rfl))
      rw [hrec]

/-- An occurrence somewhere in the text makes the split succeed. -/
theorem splitOnFirst_ne_none (pat u v : List Char) (hpat : pat ≠ []) :
    splitOnFirst pat (u ++ (pat ++ v)) ≠ none := by
  intro h
  have := (splitOnFirst_none_iff pat hpat _).mp h u (pat ++ v) rfl
  rw [(startsWithL_iff pat (pat ++ v)).mpr ⟨v, rfl⟩] at this
  exact absurd this (by simp)

/-- A pattern absent from a text is absent from every suffix of it. -/
theorem splitOnFirst_none_suffix (pat u v s : List Char) (hpat : pat ≠ [])
    (hs : s = u ++ v) (h : splitOnFirst pat s = none) :
    splitOnFirst pat v = none := by
  rw [splitOnFirst_none_iff pat hpat]
  intro u' v' hv'
  exact (splitOnFirst_none_iff pat hpat s).mp h (u ++ u') v'
    (by rw [hs, hv', List.append_assoc])

/-- A prefix of an extended text that fits inside the base is a prefix of the
base. -/
theorem startsWith_of_long (pat v z : List Char) (hl : pat.length ≤ v.length)
    (hs : startsWithL pat (v ++ z) = true) : startsWithL pat v = true := by
  obtain ⟨t, ht⟩ := (startsWithL_iff pat (v ++ z)).mp hs
  refine (startsWithL_iff pat v).mpr ⟨v.drop pat.length, ?_⟩
  have h1 := congrArg (List.take pat.length) ht
  rw [List.take_append_eq_append_take, Nat.sub_eq_zero_of_le hl,
    List.take_zero, List.append_nil, List.take_left' rfl] at h1
  conv_lhs => rw [← List.take_append_drop pat.length v]
  rw [h1]

/-- An overlap-free pattern cannot match while straddling the boundary in
front of one of its own occurrences. -/
theorem startsWith_straddle (pat v y : List Char) (hov : overlapFree pat = true)
    (h0 : v ≠ []) (hlt : v.length < pat.length) :
    startsWithL pat (v ++ (pat ++ y)) = false := by
  rw [Bool.eq_false_iff]
  intro hs
  obtain ⟨t, ht⟩ := (startsWithL_iff pat _).mp hs
  have hvt : v.length ≤ pat.length := Nat.le_of_lt hlt
  have h2 : pat ++ y = pat.drop v.length ++ t := by
    have := congrArg (List.drop v.length) ht
    rw [List.drop_left' rfl, List.drop_append_eq_append_drop,
      Nat.sub_eq_zero_of_le hvt, List.drop_zero] at this
    exact this
  have h3 : pat.take (pat.length - v.length) = pat.drop v.length := by
    have := congrArg (List.take (pat.length - v.length)) h2
    rw [List.take_append_eq_append_take, Nat.sub_eq_zero_of_le (Nat.sub_le _ _),
      List.take_zero, List.append_nil] at this
    rw [this, List.take_append_eq_append_take, List.length_drop,
      Nat.sub_self, List.take_zero, List.append_nil,
      List.take_of_length_le (by rw [List.length_drop])]
  have h4 : startsWithL (pat.drop v.length) pat = true := by
    refine (startsWithL_iff _ _).mpr ⟨pat.drop (pat.length - v.length), ?_⟩
    conv_lhs => rw [← List.take_append_drop (pat.length - v.length) pat]
    rw [h3]
  have h5 := List.all_eq_true.mp hov v.length
    (List.mem_range.mpr hlt)
  have h6 : v.length ≠ 0 := fun hz => h0 (List.length_eq_zero.mp hz)
  rw [h4] at h5
  simp only [Bool.not_true, Bool.or_false, beq_iff_eq] at h5
  exact h6 h5

/-- Inside a text whose head part avoids an overlap-free pattern, the first
pattern occurrence is the explicitly given one. -/
theorem min_of_none (pat y x : List Char) (hpat : pat ≠ [])
    (hov : overlapFree pat = true) (hno : splitOnFirst pat x = none) :
    ∀ u v : List Char, x = u ++ v → v ≠ [] →
      startsWithL pat (v ++ (pat ++ y)) = false := by
  intro u v huv hv
  by_cases hl : pat.length ≤ v.length
  · rw [Bool.eq_false_iff]
    intro hs
    have h1 : startsWithL pat v = true := startsWith_of_long pat v (pat ++ y) hl hs
    have h2 := (splitOnFirst_none_iff pat hpat x).mp hno u v huv
    rw [h1] at h2
    exact absurd h2 (by simp)
  · exact startsWith_straddle pat v y hov hv (Nat.not_le.mp hl)

/-- The split finds exactly the explicitly given occurrence when no earlier
one exists. -/
theorem splitOnFirst_exact (pat y : List Char) (hpat : pat ≠ []) :
    ∀ x : List Char,
      (∀ u v : List Char, x = u ++ v → v ≠ [] →
        startsWithL pat (v ++ (pat ++ y)) = false) →
      splitOnFirst pat (x ++ (pat ++ y)) = some (x, y) := by
  intro x
  induction x with
  | nil =>
    intro _
    cases pat with
    | nil => exact absurd rfl hpat
    | cons a p =>
      rw [List.nil_append, List.cons_append, splitOnFirst]
      rw [if_pos (show startsWithL (a :: p) (a :: (p ++ y)) = true from
        (startsWithL_iff _ _).mpr ⟨y, by rw [List.cons_append]⟩)]
      rw [show (a :: (p ++ y)).drop (a :: p).length = y from by
        rw [← List.cons_append, List.drop_left' rfl]]
  | cons c x' ih =>
    intro hmin
    have hs : startsWithL pat ((c :: x') ++ (pat ++ y)) = false :=
      hmin [] (c :: x') rfl (by simp)
    have hs' : startsWithL pat (c :: (x' ++ (pat ++ y))) = false := by
      rw [← List.cons_append]; exact hs
    have hrec := ih (fun u v huv hv => hmin (c :: u) v (by rw [huv, List.cons_append]) hv)
    rw [List.cons_append, splitOnFirst, if_neg (by simp [hs']), hrec]

/-- Leading whitespace is discarded by `dropWhile`. -/
theorem dropWhile_space_of_all (ws s : List Char)
    (h : ws.all isSpaceChar = true) :
    (ws ++ s).dropWhile isSpaceChar = s.dropWhile isSpaceChar := by
  rw [List.dropWhile_append, if_pos]
  rw [List.isEmpty_iff, List.dropWhile_eq_nil_iff]
  exact fun x hx => List.all_eq_true.mp h x hx

/-- Trailing whitespace does not change the stripped text. -/
theorem trimL_append_ws (s ws : List Char) (h : ws.all isSpaceChar = true) :
    trimL (s ++ ws) = trimL s := by
  unfold trimL
  rw [List.reverse_append,
    dropWhile_space_of_all _ _ (by rw [List.all_reverse]; exact h)]

/-- Leading whitespace does not change the stripped text. -/
theorem trimL_ws_append (ws s : List Char) (h : ws.all isSpaceChar = true) :
    trimL (ws ++ s) = trimL s := by
  unfold trimL
  rw [List.reverse_append, List.dropWhile_append]
  by_cases hc : (s.reverse.dropWhile isSpaceChar).isEmpty = true
  · rw [if_pos hc]
    have hws : ws.reverse.dropWhile isSpaceChar = [] := by
      rw [List.dropWhile_eq_nil_iff]
      intro x hx
      exact List.all_eq_true.mp h x (List.mem_reverse.mp hx)
    have hs0 : s.reverse.dropWhile isSpaceChar = [] := by
      simpa [List.isEmpty_iff] using hc
    rw [hws, hs0]
  · rw [if_neg hc, List.reverse_append, List.reverse_reverse]
    exact dropWhile_space_of_all ws _ h

/-- Stripping a text wrapped in whitespace on both sides yields the stripped
core. -/
theorem trimL_sandwich (ws1 s ws2 : List Char)
    (h1 : ws1.all isSpaceChar = true) (h2 : ws2.all isSpaceChar = true) :
    trimL (ws1 ++ (s ++ ws2)) = trimL s := by
  rw [trimL_ws_append ws1 _ h1, trimL_append_ws s ws2 h2]

/-- Without a `Question:` label no block is matched. -/
theorem findAllQA_of_qnone (s : List Char)
    (h : splitOnFirst qLabel s = none) : ∀ f, findAllQA f s = [] := by
  intro f
  cases f with
  | zero => rfl
  | succ f => simp [findAllQA, h]

/-- Without an `Answer:` label no block is matched. -/
theorem findAllQA_of_anone (s : List Char)
    (h : splitOnFirst aLabel s = none) : ∀ f, findAllQA f s = [] := by
  intro f
  cases f with
  | zero => rfl
  | succ f =>
    simp only [findAllQA]
    cases hq : splitOnFirst qLabel s with
    | none => rfl
    | some p =>
      obtain ⟨pre, afterQ⟩ := p
      have hdec := splitOnFirst_some_eq qLabel s pre afterQ hq
      have hnone : splitOnFirst aLabel afterQ = none :=
        splitOnFirst_none_suffix aLabel (pre ++ qLabel) afterQ s (by decide)
          (by rw [hdec, List.append_assoc]) h
      dsimp only
      rw [hnone]

/-- Scanning a cons fails exactly when the head position and the tail both
fail. -/
theorem scanFor_cons_none {α : Type} (hit : List Char → Option α) (c : Char)
    (cs : List Char) :
    scanFor hit (c :: cs) = none ↔
      hit (c :: cs) = none ∧ scanFor hit cs = none := by
  cases hh : hit (c :: cs) <;> simp [scanFor, hh]

/-- A scanner whose position matcher fails wherever a second matcher fails
inherits the second scanner's overall failure. -/
theorem scanFor_none_of {α β : Type} (hit1 : List Char → Option α)
    (hit2 : List Char → Option β)
    (himp : ∀ t, hit1 t = none → hit2 t = none) :
    ∀ s, scanFor hit1 s = none → scanFor hit2 s = none := by
  intro s
  induction s with
  | nil => intro _; rfl
  | cons c cs ih =>
    intro h
    obtain ⟨h1, h2⟩ := (scanFor_cons_none hit1 c cs).mp h
    exact (scanFor_cons_none hit2 c cs).mpr ⟨himp _ h1, ih h2⟩

/-- A failed label matcher means the label does not start here. -/
theorem basicHit_none (lab t : List Char)
    (h : (if startsWithCI lab t then some (t.drop lab.length) else none) =
      none) :
    startsWithCI lab t = false := by
  by_cases hs : startsWithCI lab t = true
  · rw [if_pos hs] at h
    exact absurd h (by simp)
  · exact Bool.eq_false_iff.mpr hs

/-- Without either message label the message scanner fails. -/
theorem scanFor_omHit_none : ∀ T : List Char,
    findAfterCI omLabel T = none → findAfterCI ofLabel T = none →
    scanFor omHit T = none := by
  intro T
  induction T with
  | nil => intro _ _; rfl
  | cons c cs ih =>
    intro h1 h2
    simp only [findAfterCI] at h1 h2 ih
    obtain ⟨h1h, h1t⟩ := (scanFor_cons_none _ c cs).mp h1
    obtain ⟨h2h, h2t⟩ := (scanFor_cons_none _ c cs).mp h2
    refine (scanFor_cons_none omHit c cs).mpr ⟨?_, ih h1t h2t⟩
    rw [omHit, if_neg (by simp [basicHit_none _ _ h1h]),
      if_neg (by simp [basicHit_none _ _ h2h])]

/-- C7: when the text carries none of the known labels, the overall parse
never raises and degrades to the documented defaults — `N/A` for the hiring
percentage and the improvement areas, and the whole stripped input as the
message; on a fully labelled text the three fields are extracted. -/
theorem C7_parse_overall_results (T : List Char) :
    (findAfterCI hpLabel T = none → findAfterCI afiLabel T = none →
     findAfterCI omLabel T = none → findAfterCI ofLabel T = none →
      parse_overall_results T = ⟨nA, nA, trimL T⟩) ∧
    parse_overall_results (strL "Hiring Percentage: 75%\nAreas for Improvement:\n- A\n- B\nOverall Message: Nice try.") =
      ⟨strL "75%", strL "- A\n- B", strL "Nice try."⟩ := by
  constructor
  · intro h1 h2 h3 h4
    have h1' : scanFor (fun t => if startsWithCI hpLabel t then
        some (t.drop hpLabel.length) else none) T = none := h1
    have hhp : scanFor hpHit T = none := by
      refine scanFor_none_of _ hpHit (fun t ht => ?_) T h1'
      rw [hpHit, if_neg (by simp [basicHit_none _ _ ht])]
    have hom : scanFor omHit T = none := scanFor_omHit_none T h3 h4
    simp [parse_overall_results, hhp, h2, hom]
  · decide

/-- C7 witness: a text without any recognizable label keeps both sentinels
and returns the stripped input as the message. -/
theorem C7_parse_overall_results_witness :
    parse_overall_results (strL " some unlabeled text ") =
      ⟨nA, nA, trimL (strL " some unlabeled text ")⟩ :=
  (C7_parse_overall_results _).1 (by decide) (by decide) (by decide)
    (by decide)

/-- C8: on a fully labelled resume-optimization completion, bold markers are
stripped from the score, summary, improvement and analysis fields but kept
verbatim in the optimized resume body; `**Match Score:** 82%` yields the
score `82%`; a score missing its percent sign is recovered by the bare
fallback pattern and `%` is appended; and the improvements block is split on
line breaks with bullet markers removed and blank lines dropped. -/
theorem C8_parse_resume_optimization :
    parse_resume_optimization_response resumeSample =
      ⟨strL "82%", strL "Good fit overall.",
       [strL "Add metrics", strL "Fix typos"],
       strL "John **Doe**\nDev.", strL "Made better."⟩ ∧
    (parse_resume_optimization_response
      (strL "**Match Score:** 82%")).match_score = strL "82%" ∧
    (parse_resume_optimization_response
      (strL "Match Score: 82")).match_score = strL "82%" := by
  refine ⟨by decide, by decide, by decide⟩

/-- C6: a well-formed `Question: A Answer: B` text — the components
non-empty and already stripped, the question free of the `Answer:` label and
the answer free of the `Question:` label — parses to exactly the one pair
`(A, B)`, whatever trailing whitespace follows; a text missing either label
parses to no pairs; and every parsed pair has a non-empty question and
answer, the empty ones being dropped. -/
theorem C6_parse_ai_response :
    (∀ A B ws : List Char, trimL A = A → A ≠ [] → trimL B = B → B ≠ [] →
      ws.all isSpaceChar = true →
      splitOnFirst aLabel (' ' :: (A ++ [' '])) = none →
      splitOnFirst qLabel (' ' :: (B ++ ws)) = none →
      parse_ai_response
        (strL "Question: " ++ A ++ strL " Answer: " ++ B ++ ws) =
        [⟨A, B⟩]) ∧
    (∀ T : List Char,
      splitOnFirst qLabel T = none ∨ splitOnFirst aLabel T = none →
      parse_ai_response T = []) ∧
    (∀ (T : List Char) (qa : QA), qa ∈ parse_ai_response T →
      qa.question ≠ [] ∧ qa.answer ≠ []) := by
  refine ⟨?_, ?_, ?_⟩
  · intro A B ws hA hA0 hB hB0 hws hAno hBno
    have hT : strL "Question: " ++ A ++ strL " Answer: " ++ B ++ ws =
        qLabel ++ ((' ' :: (A ++ [' '])) ++ (aLabel ++ (' ' :: (B ++ ws)))) := by
      rw [show strL "Question: " = qLabel ++ [' '] from by decide,
        show strL " Answer: " = [' '] ++ (aLabel ++ [' ']) from by decide]
      simp [List.append_assoc]
    rw [hT]
    have hsplit2 : splitOnFirst aLabel
        ((' ' :: (A ++ [' '])) ++ (aLabel ++ (' ' :: (B ++ ws)))) =
        some (' ' :: (A ++ [' ']), ' ' :: (B ++ ws)) :=
      splitOnFirst_exact aLabel (' ' :: (B ++ ws)) (by decide) _
        (min_of_none aLabel (' ' :: (B ++ ws)) (' ' :: (A ++ [' ']))
          (by decide) (by decide) hAno)
    have hsplit1 : splitOnFirst qLabel
        (qLabel ++ ((' ' :: (A ++ [' '])) ++ (aLabel ++ (' ' :: (B ++ ws))))) =
        some ([], (' ' :: (A ++ [' '])) ++ (aLabel ++ (' ' :: (B ++ ws)))) := by
      have := splitOnFirst_exact qLabel
        ((' ' :: (A ++ [' '])) ++ (aLabel ++ (' ' :: (B ++ ws)))) (by decide) []
        (fun u v huv hv => absurd (List.append_eq_nil.mp huv.symm).2 hv)
      simpa using this
    have hL : (qLabel ++
        ((' ' :: (A ++ [' '])) ++ (aLabel ++ (' ' :: (B ++ ws))))).length =
        ((qLabel ++
          ((' ' :: (A ++ [' '])) ++ (aLabel ++ (' ' :: (B ++ ws))))).length - 1)
          + 1 := by
      rw [List.length_append]
      have h9 : qLabel.length = 9 := by decide
      omega
    have htx : trimL (' ' :: (A ++ [' '])) = A := by
      rw [show (' ' :: (A ++ [' '])) = [' '] ++ (A ++ [' ']) from rfl,
        trimL_sandwich [' '] A [' '] (by decide) (by decide), hA]
    have hty : trimL (' ' :: (B ++ ws)) = B := by
      rw [show (' ' :: (B ++ ws)) = [' '] ++ (B ++ ws) from rfl,
        trimL_ws_append [' '] _ (by decide), trimL_append_ws B ws hws, hB]
    simp only [parse_ai_response]
    rw [hL]
    simp only [findAllQA, hsplit1, hsplit2, hBno, findAllQA_of_qnone _ hBno]
    simp [htx, hty, hA0, hB0]
  · intro T h
    rcases h with h | h
    · simp only [parse_ai_response, findAllQA_of_qnone T h, List.filterMap_nil]
    · simp only [parse_ai_response, findAllQA_of_anone T h, List.filterMap_nil]
  · intro T qa hqa
    simp only [parse_ai_response, List.mem_filterMap] at hqa
    obtain ⟨p, _, hp⟩ := hqa
    by_cases hc : trimL p.1 = [] ∨ trimL p.2 = []
    · rw [if_pos hc] at hp
      exact absurd hp (by simp)
    · rw [if_neg hc] at hp
      push_neg at hc
      have hq : qa = ⟨trimL p.1, trimL p.2⟩ := by
        injection hp with hp'
        exact hp'.symm
      rw [hq]
      exact ⟨hc.1, hc.2⟩

/-- C6 witness: the canonical `Question: A Answer: B` text with trailing
whitespace parses to the single pair `(A, B)`. -/
theorem C6_parse_ai_response_witness :
    parse_ai_response (strL "Question: " ++ strL "A" ++ strL " Answer: " ++
      strL "B" ++ strL "  \n") = [⟨strL "A", strL "B"⟩] :=
  C6_parse_ai_response.1 (strL "A") (strL "B") (strL "  \n") (by decide)
    (by decide) (by decide) (by decide) (by decide) (by decide) (by decide)

end HireCoach
